import Mathlib

/-!
Shallow embedding of `app/src/ui/changes/no-changes.tsx` — the "no local
changes" blankslate panel of a desktop Git client — together with proofs
of the specification's claims about it.

The component is pure with respect to its inputs: it reads a menu model
(tree of menu items), a repository-state snapshot and a feature flag, and
produces a panel description.  We model the rendered JSX as explicit view
data (`PanelView`, `ActionView`, …), `log.error` calls as a list of log
messages returned alongside each view, click handlers as `ClickAction`
command descriptors, and the JS `Map` as an association list with the
insertion-order/overwrite semantics of `Map.prototype.set`.
-/

set_option autoImplicit false

namespace NoChangesSpec

/-- A menu item of the application menu model (`models/app-menu`).
Only the fields used by `no-changes.tsx` are modelled: the discriminating
`type` ('separator' / leaf command / 'submenuItem'), `id`, `label`,
`enabled`, the nullable `accelerator` of a leaf item, and a submenu
item's `menu.items` list (here carried directly as a list of items). -/
inductive MenuItem where
  | separator : MenuItem
  | leaf (id label : String) (enabled : Bool) (accelerator : Option String) : MenuItem
  | submenuItem (id label : String) (enabled : Bool) (menu : List MenuItem) : MenuItem

/-- The menu model handed to the component via the `appMenu` prop: a
top-level menu with its `items` array. -/
structure IMenu where
  items : List MenuItem

/-- The flat per-item projection built by `buildMenuItemInfoMap`
(interface `IMenuItemInfo`, lines 45–50 of the source). -/
structure IMenuItemInfo where
  label : String
  acceleratorKeys : List String
  parentMenuLabels : List String
  enabled : Bool
deriving DecidableEq

/-- The `ReadonlyMap<string, IMenuItemInfo>` of the source, as an
association list in insertion order. -/
abbrev Smap := List (String × IMenuItemInfo)

/-- Keys of the map, in insertion order. -/
def Smap.keys (m : Smap) : List String :=
  (List.map Prod.fst m)

/-- `Map.prototype.set`: overwrite in place when the key is present,
append otherwise. -/
def Smap.set (m : Smap) (k : String) (v : IMenuItemInfo) : Smap :=
  if k ∈ m.keys then
    List.map (fun p => if p.1 = k then (k, v) else p) m
  else
    m ++ [(k, v)]

/-- `Map.prototype.get`, returning `none` for `undefined`. -/
def Smap.get (m : Smap) (k : String) : Option IMenuItemInfo :=
  (List.find? (fun p => p.1 = k) m).map Prod.snd

/-- `getItemAcceleratorKeys` (source lines 52–64).  The platform-specific
modifier naming (`getPlatformSpecificNameOrSymbolForModifier`, an external
helper) is abstracted as the function argument `pf`. -/
def getItemAcceleratorKeys (pf : String → String) : MenuItem → List String
  | .separator => []
  | .submenuItem _ _ _ _ => []
  | .leaf _ _ _ none => []
  | .leaf _ _ _ (some accelerator) => (accelerator.splitOn "+").map pf

/-- The `infoItem` record built for a non-separator item at source
lines 76–82, given the parent info (or `none` at the top level). -/
def infoFor (pf : String → String) (parent : Option IMenuItemInfo) (item : MenuItem) :
    IMenuItemInfo :=
  { label := match item with
      | .separator => ""
      | .leaf _ l _ _ => l
      | .submenuItem _ l _ _ => l
    acceleratorKeys := getItemAcceleratorKeys pf item
    parentMenuLabels := match parent with
      | none => []
      | some p => p.label :: p.parentMenuLabels
    enabled := match item with
      | .separator => false
      | .leaf _ _ e _ => e
      | .submenuItem _ _ e _ => e }

/-- The `for (const item of menu.items)` loop body of
`buildMenuItemInfoMap` (source lines 71–89), as recursion over the item
list: separators are skipped, non-separator items are `set` into the map,
and submenu items are traversed recursively with their own info as the
parent. -/
def buildItems (pf : String → String) (parent : Option IMenuItemInfo) (map : Smap) :
    List MenuItem → Smap
  | [] => map
  | .separator :: rest => buildItems pf parent map rest
  | .leaf i l e a :: rest =>
    buildItems pf parent (map.set i (infoFor pf parent (.leaf i l e a))) rest
  | .submenuItem i l e sub :: rest =>
    let infoItem := infoFor pf parent (.submenuItem i l e sub)
    buildItems pf parent (buildItems pf (some infoItem) (map.set i infoItem) sub) rest

/-- `buildMenuItemInfoMap` (source lines 66–92) with its default
arguments (`map = new Map()`, `parent` undefined). -/
def buildMenuItemInfoMap (pf : String → String) (menu : IMenu)
    (map : Smap := []) (parent : Option IMenuItemInfo := none) : Smap :=
  buildItems pf parent map menu.items

/-- The compile-time platform globals `__DARWIN__` / `__WIN32__` of the
source, as an explicit parameter. -/
inductive Platform where
  | darwin
  | win32
  | linux
deriving DecidableEq

/-- Opaque repository handle (`models/repository`); only its identity
matters to this component. -/
structure Repository where
  id : Nat
deriving DecidableEq

/-- Modelled from the spec: the repository-state snapshot
(`IRepositoryState`, external to this file) "supplies at minimum a
'remote' field, null when the repository has no configured remote"; the
remote value itself is opaque, kept here as its name string. -/
structure IRepositoryState where
  remote : Option String
deriving DecidableEq

/-- The component props (`INoChangesProps`, source lines 27–43).  The
dispatcher is not a value; dispatches are modelled as `ClickAction`
descriptors on the produced views. -/
structure INoChangesProps where
  repository : Repository
  appMenu : Option IMenu
  repositoryState : IRepositoryState

/-- The command a click handler fires: the external boundaries reached by
this component (`dispatcher.showPopup` with a publish-repository popup,
`revealInFileManager`, `executeMenuItemById`). -/
inductive ClickAction where
  | showPublishRepositoryPopup (repository : Repository)
  | revealInFileManager (repository : Repository) (path : String)
  | executeMenuItemById (id : String)
deriving DecidableEq

/-- A rendered action description: its text plus an optional embedded
link (`LinkButton`) firing a command, as in the external-editor action's
"Configure which editor…" description. -/
structure DescriptionView where
  text : String
  linkAction : Option ClickAction
deriving DecidableEq

/-- One rendered blankslate action (`BlankslateAction` /
`MenuBackedBlankslateAction` element).  `discoverability` carries the
parent-menu labels and accelerator keys shown by
`renderDiscoverabilityElements`; `isPrimary` distinguishes the publish
action (`type="primary"`). -/
structure ActionView where
  title : String
  description : Option DescriptionView
  discoverability : Option (List String × List String)
  buttonText : String
  onClick : ClickAction
  isPrimary : Bool
deriving DecidableEq

/-- The error message `log.error` receives when a menu item is missing
from the index. -/
def missingItemError (itemId : String) : String :=
  "Could not find matching menu item for " ++ itemId

/-- The memoized `getMenuInfoMap`'s underlying computation (source
lines 96–100): an empty map when `appMenu` is undefined, the built index
otherwise.  The memoization layer itself is modelled separately below. -/
def getMenuInfoMap (pf : String → String) : Option IMenu → Smap
  | none => []
  | some menu => buildMenuItemInfoMap pf menu

/-- `getMenuItemInfo` (source lines 102–104). -/
def getMenuItemInfo (pf : String → String) (props : INoChangesProps)
    (menuItemId : String) : Option IMenuItemInfo :=
  (getMenuInfoMap pf props.appMenu).get menuItemId

/-- `renderMenuBackedAction` (source lines 175–200), returning the
rendered element (or `none` for null) together with the `log.error`
messages emitted. -/
def renderMenuBackedAction (pf : String → String) (props : INoChangesProps)
    (itemId title : String) (description : Option DescriptionView) :
    Option ActionView × List String :=
  match getMenuItemInfo pf props itemId with
  | none => (none, [missingItemError itemId])
  | some menuItem =>
    if !menuItem.enabled then
      (none, [])
    else
      (some { title := title
              description := description
              discoverability := some (menuItem.parentMenuLabels, menuItem.acceleratorKeys)
              buttonText := menuItem.label
              onClick := .executeMenuItemById itemId
              isPrimary := false }, [])

/-- `getPlatformFileManagerName` (source lines 153–160). -/
def getPlatformFileManagerName : Platform → String
  | .darwin => "Finder"
  | .win32 => "Explorer"
  | .linux => "Your File Manager"

/-- `renderShowInFinderAction` (source lines 202–209). -/
def renderShowInFinderAction (pf : String → String) (platform : Platform)
    (props : INoChangesProps) : Option ActionView × List String :=
  renderMenuBackedAction pf props "open-working-directory"
    ("View the files in your repository in " ++ getPlatformFileManagerName platform)
    none

/-- `renderViewOnGitHub` (source lines 211–216). -/
def renderViewOnGitHub (pf : String → String) (props : INoChangesProps) :
    Option ActionView × List String :=
  renderMenuBackedAction pf props "view-repository-on-github"
    "Open the repository page on GitHub in your browser"
    none

/-- `renderOpenInExternalEditor` (source lines 222–250).  Note the source
logs the `open-external-editor` id in both missing-item branches. -/
def renderOpenInExternalEditor (pf : String → String) (platform : Platform)
    (props : INoChangesProps) : Option ActionView × List String :=
  let itemId := "open-external-editor"
  match getMenuItemInfo pf props itemId with
  | none => (none, [missingItemError itemId])
  | some _ =>
    match getMenuItemInfo pf props "preferences" with
    | none => (none, [missingItemError itemId])
    | some _ =>
      renderMenuBackedAction pf props itemId
        "Open the repository in your external editor"
        (some { text := "Configure which editor you wish to use in "
                  ++ (if platform = .darwin then "preferences" else "options")
                linkAction := some (.executeMenuItemById "preferences") })

/-- The `BlankslateAction` element built by `renderPublishRepositoryAction`
for a found `push` menu item (source lines 282–291). -/
def publishActionView (repository : Repository) (menuItem : IMenuItemInfo) : ActionView :=
  { title := "Publish your repository to GitHub"
    description := some
      { text := "This repository is currently only available on your local machine. By publishing it on GitHub you can share it, and collaborate with others."
        linkAction := none }
    discoverability := some (menuItem.parentMenuLabels, menuItem.acceleratorKeys)
    buttonText := "Publish repository"
    onClick := .showPublishRepositoryPopup repository
    isPrimary := true }

/-- `renderPublishRepositoryAction` (source lines 269–292): keyed off the
`push` menu item, with no check of its enabled flag. -/
def renderPublishRepositoryAction (pf : String → String) (props : INoChangesProps) :
    Option ActionView × List String :=
  match getMenuItemInfo pf props "push" with
  | none => (none, [missingItemError "push"])
  | some menuItem => (some (publishActionView props.repository menuItem), [])

/-- `renderRemoteAction` (source lines 252–260). -/
def renderRemoteAction (pf : String → String) (props : INoChangesProps) :
    Option ActionView × List String :=
  match props.repositoryState.remote with
  | none => renderPublishRepositoryAction pf props
  | some _ => (none, [])

/-- The action area of the Enhanced panel: the `actions primary` div
(empty or a single remote action) and the `actions` div with the
non-null secondary actions in order. -/
structure ActionsView where
  primary : List ActionView
  secondary : List ActionView
deriving DecidableEq

/-- `renderActions` (source lines 294–311). -/
def renderActions (pf : String → String) (platform : Platform)
    (props : INoChangesProps) : ActionsView × List String :=
  let remoteAction := renderRemoteAction pf props
  let finder := renderShowInFinderAction pf platform props
  let editor := renderOpenInExternalEditor pf platform props
  let github := renderViewOnGitHub pf props
  ({ primary := match remoteAction.1 with
       | none => []
       | some a => [a]
     secondary := [finder.1, editor.1, github.1].filterMap id },
   remoteAction.2 ++ finder.2 ++ editor.2 ++ github.2)

/-- The rendered panel: the Legacy (`renderClassicBlankSlate`) or the
Enhanced (`renderNewNoChangesBlankSlate`) variant.  The legacy panel
carries the opener name shown in its message and the command its single
link fires. -/
inductive PanelView where
  | classic (openerName : String) (linkClick : ClickAction) : PanelView
  | enhanced (actions : ActionsView) : PanelView
deriving DecidableEq

/-- The legacy panel's opener label (source lines 107–111). -/
def classicOpener : Platform → String
  | .darwin => "Finder"
  | .win32 => "Explorer"
  | .linux => "your File Manager"

/-- `renderClassicBlankSlate` (source lines 106–124) with the `open`
click handler (source lines 321–323): the single link reveals the
repository in the file manager with the empty relative path. -/
def renderClassicBlankSlate (platform : Platform) (props : INoChangesProps) : PanelView :=
  .classic (classicOpener platform) (.revealInFileManager props.repository "")

/-- `render` (source lines 313–319).  The feature-flag predicate
`enableNewNoChangesBlankslate` (external) is the `flag` argument. -/
def render (flag : Bool) (pf : String → String) (platform : Platform)
    (props : INoChangesProps) : PanelView × List String :=
  if flag then
    let actions := renderActions pf platform props
    (.enhanced actions.1, actions.2)
  else
    (renderClassicBlankSlate platform props, [])

/-! ### Memoization layer

`getMenuInfoMap` wraps the computation above in `memoizeOne`, an external
library.  Modelled from the spec: "the memoize-on-last-argument-identity
pattern should become an explicit single-slot cache keyed by a
reference/identity comparison, invalidated whenever a new menu-model
reference arrives".  JS object identity is modelled by tagging each menu
object with a reference token (`Nat`); an environment maps live tokens to
their menu values, and the argument `Option Nat` is either `undefined` or
a reference. -/

/-- The uncached computation underneath the memoized `getMenuInfoMap`,
on references. -/
def computeMenuInfoMap (pf : String → String) (env : Nat → IMenu) :
    Option Nat → Smap
  | none => []
  | some r => buildMenuItemInfoMap pf (env r)

/-- Modelled from the spec: `memoizeOne` as a single-slot cache.  The
cache holds the last argument (by reference identity) and the last
result; a call returns the result, the new cache, and whether the
underlying builder was re-run. -/
def getMenuInfoMapMemo (pf : String → String) (env : Nat → IMenu)
    (cache : Option (Option Nat × Smap)) (menuRef : Option Nat) :
    Smap × (Option (Option Nat × Smap) × Bool) :=
  match cache with
  | some (k, v) =>
    if k = menuRef then
      (v, (some (k, v), false))
    else
      let v' := computeMenuInfoMap pf env menuRef
      (v', (some (menuRef, v'), true))
  | none =>
    let v' := computeMenuInfoMap pf env menuRef
    (v', (some (menuRef, v'), true))

/-! ### Specification-side views of the index builder

The claims about `buildMenuItemInfoMap` are stated through a direct
flattening of the tree: `treeItems` lists the non-separator items in
traversal order, `nonSepIds` their identifiers, and `entriesOf` the
association list the builder produces when no identifiers collide. -/

/-- The identifier of a non-separator item (`""` for a separator, which
has no identifier in the model). -/
def MenuItem.itemId : MenuItem → String
  | .separator => ""
  | .leaf i _ _ _ => i
  | .submenuItem i _ _ _ => i

/-- The label of an item. -/
def MenuItem.itemLabel : MenuItem → String
  | .separator => ""
  | .leaf _ l _ _ => l
  | .submenuItem _ l _ _ => l

/-- The enabled flag of an item. -/
def MenuItem.itemEnabled : MenuItem → Bool
  | .separator => false
  | .leaf _ _ e _ => e
  | .submenuItem _ _ e _ => e

/-- All non-separator items of a tree, in the traversal order of
`buildMenuItemInfoMap`: an item precedes its submenu's items, which
precede its right siblings; separators are dropped. -/
def treeItems : List MenuItem → List MenuItem
  | [] => []
  | .separator :: rest => treeItems rest
  | .leaf i l e a :: rest => .leaf i l e a :: treeItems rest
  | .submenuItem i l e sub :: rest =>
    .submenuItem i l e sub :: (treeItems sub ++ treeItems rest)

/-- The identifiers of the non-separator items, in traversal order. -/
def nonSepIds : List MenuItem → List String
  | [] => []
  | .separator :: rest => nonSepIds rest
  | .leaf i _ _ _ :: rest => i :: nonSepIds rest
  | .submenuItem i _ _ sub :: rest => i :: (nonSepIds sub ++ nonSepIds rest)

/-- The entries the builder inserts, as a plain list (meaningful when
identifiers are pairwise distinct, so that no `set` overwrites). -/
def entriesOf (pf : String → String) (parent : Option IMenuItemInfo) :
    List MenuItem → List (String × IMenuItemInfo)
  | [] => []
  | .separator :: rest => entriesOf pf parent rest
  | .leaf i l e a :: rest =>
    (i, infoFor pf parent (.leaf i l e a)) :: entriesOf pf parent rest
  | .submenuItem i l e sub :: rest =>
    let infoItem := infoFor pf parent (.submenuItem i l e sub)
    (i, infoItem) :: (entriesOf pf (some infoItem) sub ++ entriesOf pf parent rest)

/-! ### Concrete fixtures used for counterexamples and witnesses -/

/-- A menu whose two leaf items share the identifier `a`. -/
def dupMenu : IMenu := ⟨[.leaf "a" "L1" true none, .leaf "a" "L2" false none]⟩

/-- A small well-formed menu with a submenu, a separator and leaves. -/
def sampleMenu : IMenu :=
  ⟨[.submenuItem "file" "File" true
      [.leaf "push" "Push" true none,
       .separator,
       .leaf "preferences" "Preferences" true none],
    .separator,
    .leaf "open-working-directory" "Show" true none]⟩

/-- Props with no app menu and no remote. -/
def noMenuProps : INoChangesProps :=
  { repository := ⟨0⟩, appMenu := none, repositoryState := { remote := none } }

/-- A menu holding only an enabled `push` item. -/
def pushMenu : IMenu := ⟨[.leaf "push" "Push" true none]⟩

/-- Props with `pushMenu` and no remote. -/
def pushProps : INoChangesProps :=
  { repository := ⟨0⟩, appMenu := some pushMenu, repositoryState := { remote := none } }

/-- The index entry `buildMenuItemInfoMap` produces for `pushMenu`'s item. -/
def pushInfo : IMenuItemInfo :=
  { label := "Push", acceleratorKeys := [], parentMenuLabels := [], enabled := true }

/-- A menu whose three secondary-action items are disabled (preferences
itself enabled). -/
def disabledMenu : IMenu :=
  ⟨[.leaf "open-working-directory" "Show" false none,
    .leaf "open-external-editor" "Editor" false none,
    .leaf "preferences" "Preferences" true none,
    .leaf "view-repository-on-github" "View" false none]⟩

/-- Props with `disabledMenu` and a remote. -/
def disabledProps : INoChangesProps :=
  { repository := ⟨0⟩, appMenu := some disabledMenu,
    repositoryState := { remote := some "origin" } }

/-- A menu with an `open-external-editor` item but no `preferences` item. -/
def noPrefsMenu : IMenu := ⟨[.leaf "open-external-editor" "Editor" true none]⟩

/-- Props with `noPrefsMenu`. -/
def noPrefsProps : INoChangesProps :=
  { repository := ⟨0⟩, appMenu := some noPrefsMenu, repositoryState := { remote := none } }

/-- A menu holding only a disabled `push` item. -/
def disabledPushMenu : IMenu := ⟨[.leaf "push" "Push" false none]⟩

/-- Props with `disabledPushMenu` and no remote. -/
def disabledPushProps : INoChangesProps :=
  { repository := ⟨1⟩, appMenu := some disabledPushMenu,
    repositoryState := { remote := none } }

/-- The index entry for `disabledPushMenu`'s item. -/
def disabledPushInfo : IMenuItemInfo :=
  { label := "Push", acceleratorKeys := [], parentMenuLabels := [], enabled := false }

/-- A reference environment for the memoization model: every reference
token denotes `pushMenu`. -/
def sampleEnv : Nat → IMenu := fun _ => pushMenu

/-! ### Map and index-builder lemmas -/

theorem Smap.keys_append (m₁ m₂ : Smap) : (m₁ ++ m₂).keys = m₁.keys ++ m₂.keys := by
  simp [Smap.keys]

theorem Smap.set_of_not_mem_keys {m : Smap} {k : String} (v : IMenuItemInfo)
    (h : k ∉ m.keys) : m.set k v = m ++ [(k, v)] := by
  simp [Smap.set, h]

theorem Smap.get_cons_self (m : Smap) (k : String) (v : IMenuItemInfo) :
    Smap.get ((k, v) :: m) k = some v := by
  simp [Smap.get, List.find?]

theorem Smap.get_cons_of_ne (m : Smap) {k k' : String} (v : IMenuItemInfo)
    (h : k ≠ k') : Smap.get ((k', v) :: m) k = m.get k := by
  simp [Smap.get, List.find?, Ne.symm h]

theorem Smap.get_eq_none {m : Smap} {k : String} (h : k ∉ m.keys) : m.get k = none := by
  induction m with
  | nil => rfl
  | cons p rest ih =>
    have hk : k ≠ p.1 := by
      intro he
      exact h (by simp [Smap.keys, he])
    have hstep : Smap.get (p :: rest) k = Smap.get rest k := by
      obtain ⟨a, b⟩ := p
      exact Smap.get_cons_of_ne rest b (by simpa using hk)
    rw [hstep]
    exact ih (fun hm => h (by simp [Smap.keys] at hm ⊢; exact Or.inr hm))

theorem Smap.get_append_of_not_mem {m₁ : Smap} (m₂ : Smap) {k : String}
    (h : k ∉ m₁.keys) : Smap.get (m₁ ++ m₂) k = m₂.get k := by
  induction m₁ with
  | nil => rfl
  | cons p rest ih =>
    have hk : k ≠ p.1 := by
      intro he
      exact h (by simp [Smap.keys, he])
    have hstep : Smap.get (p :: (rest ++ m₂)) k = Smap.get (rest ++ m₂) k := by
      obtain ⟨a, b⟩ := p
      exact Smap.get_cons_of_ne _ b (by simpa using hk)
    have h2 : k ∉ Smap.keys rest := fun hm => h (by simp [Smap.keys] at hm ⊢; exact Or.inr hm)
    simpa [hstep] using ih h2

theorem Smap.get_append_of_some {m₁ : Smap} (m₂ : Smap) {k : String} {v : IMenuItemInfo}
    (h : m₁.get k = some v) : Smap.get (m₁ ++ m₂) k = some v := by
  induction m₁ with
  | nil => simp [Smap.get] at h
  | cons p rest ih =>
    obtain ⟨a, b⟩ := p
    by_cases hk : k = a
    · subst hk
      rw [Smap.get_cons_self] at h
      rw [List.cons_append, Smap.get_cons_self]
      exact h
    · rw [Smap.get_cons_of_ne _ _ hk] at h
      rw [List.cons_append, Smap.get_cons_of_ne _ _ hk]
      exact ih h

theorem infoFor_label (pf : String → String) (parent : Option IMenuItemInfo)
    (item : MenuItem) : (infoFor pf parent item).label = item.itemLabel := by
  cases item <;> rfl

theorem infoFor_enabled (pf : String → String) (parent : Option IMenuItemInfo)
    (item : MenuItem) : (infoFor pf parent item).enabled = item.itemEnabled := by
  cases item <;> rfl

theorem entriesOf_keys (pf : String → String) :
    ∀ (items : List MenuItem) (parent : Option IMenuItemInfo),
      Smap.keys (entriesOf pf parent items) = nonSepIds items := by
  intro items
  induction items using nonSepIds.induct with
  | case1 => intro parent; simp [entriesOf, nonSepIds, Smap.keys]
  | case2 rest ih => intro parent; simpa [entriesOf, nonSepIds] using ih parent
  | case3 i l e a rest ih =>
    intro parent
    simp [entriesOf, nonSepIds, Smap.keys] at ih ⊢
    exact ih parent
  | case4 i l e sub rest ih_sub ih_rest =>
    intro parent
    simp [entriesOf, nonSepIds, Smap.keys] at ih_sub ih_rest ⊢
    rw [ih_sub, ih_rest]

theorem treeItems_map_itemId :
    ∀ items : List MenuItem, (treeItems items).map MenuItem.itemId = nonSepIds items := by
  intro items
  induction items using treeItems.induct with
  | case1 => simp [treeItems, nonSepIds]
  | case2 rest ih => simpa [treeItems, nonSepIds] using ih
  | case3 i l e a rest ih => simp [treeItems, nonSepIds, MenuItem.itemId, ih]
  | case4 i l e sub rest ih_sub ih_rest =>
    simp [treeItems, nonSepIds, MenuItem.itemId, ih_sub, ih_rest]

theorem buildItems_eq_entriesOf (pf : String → String) :
    ∀ (items : List MenuItem) (parent : Option IMenuItemInfo) (map : Smap),
      (∀ k ∈ map.keys, k ∉ nonSepIds items) → (nonSepIds items).Nodup →
      buildItems pf parent map items = map ++ entriesOf pf parent items := by
  intro items
  induction items using treeItems.induct with
  | case1 => intro parent map _ _; simp [buildItems, entriesOf]
  | case2 rest ih =>
    intro parent map h1 h2
    simp only [nonSepIds] at h1 h2
    simpa [buildItems, entriesOf] using ih parent map h1 h2
  | case3 i l e a rest ih =>
    intro parent map h1 h2
    simp only [nonSepIds, List.nodup_cons] at h1 h2
    have hi : i ∉ map.keys := fun hmem => h1 i hmem (by simp)
    have hfresh : ∀ k ∈ (map ++ [(i, infoFor pf parent (.leaf i l e a))]).keys,
        k ∉ nonSepIds rest := by
      intro k hk
      rw [Smap.keys_append] at hk
      rcases List.mem_append.mp hk with hk | hk
      · exact fun hr => h1 k hk (by simp [hr])
      · have hki : k = i := by simpa [Smap.keys] using hk
        subst hki
        exact h2.1
    rw [buildItems, Smap.set_of_not_mem_keys _ hi,
      ih parent (map ++ [(i, infoFor pf parent (.leaf i l e a))]) hfresh h2.2]
    simp [entriesOf]
  | case4 i l e sub rest ih_sub ih_rest =>
    intro parent map h1 h2
    simp only [nonSepIds, List.nodup_cons, List.nodup_append] at h1 h2
    obtain ⟨hhead, hsub, hrest, hdisj⟩ := h2
    set info := infoFor pf parent (.submenuItem i l e sub) with hinfo
    have hi : i ∉ map.keys := fun hmem => h1 i hmem (by simp)
    have hfresh1 : ∀ k ∈ (map ++ [(i, info)]).keys, k ∉ nonSepIds sub := by
      intro k hk
      rw [Smap.keys_append] at hk
      rcases List.mem_append.mp hk with hk | hk
      · exact fun hr => h1 k hk (by simp [hr])
      · have hki : k = i := by simpa [Smap.keys] using hk
        subst hki
        exact fun hr => hhead (List.mem_append.mpr (Or.inl hr))
    have step1 : buildItems pf (some info) (map.set i info) sub
        = map ++ [(i, info)] ++ entriesOf pf (some info) sub := by
      rw [Smap.set_of_not_mem_keys _ hi]
      exact ih_sub (some info) (map ++ [(i, info)]) hfresh1 hsub
    have hfresh2 : ∀ k ∈ (map ++ [(i, info)] ++ entriesOf pf (some info) sub).keys,
        k ∉ nonSepIds rest := by
      intro k hk
      rw [Smap.keys_append, Smap.keys_append] at hk
      rcases List.mem_append.mp hk with hk | hk
      · rcases List.mem_append.mp hk with hk | hk
        · exact fun hr => h1 k hk (by simp [hr])
        · have hki : k = i := by simpa [Smap.keys] using hk
          subst hki
          exact fun hr => hhead (List.mem_append.mpr (Or.inr hr))
      · rw [entriesOf_keys] at hk
        exact hdisj hk
    rw [buildItems, step1, ih_rest parent _ hfresh2 hrest]
    simp [entriesOf]

theorem entriesOf_get (pf : String → String) :
    ∀ (items : List MenuItem) (parent : Option IMenuItemInfo),
      (nonSepIds items).Nodup →
      ∀ it ∈ treeItems items,
        ∃ info, Smap.get (entriesOf pf parent items) it.itemId = some info ∧
          info.label = it.itemLabel ∧ info.enabled = it.itemEnabled := by
  intro items
  induction items using treeItems.induct with
  | case1 =>
    intro parent _ it hit
    simp [treeItems] at hit
  | case2 rest ih =>
    intro parent h2 it hit
    simp only [nonSepIds] at h2
    simp only [treeItems] at hit
    simpa [entriesOf] using ih parent h2 it hit
  | case3 i l e a rest ih =>
    intro parent h2 it hit
    simp only [nonSepIds, List.nodup_cons] at h2
    simp only [treeItems, List.mem_cons] at hit
    rcases hit with hit | hit
    · subst hit
      refine ⟨infoFor pf parent (.leaf i l e a), ?_,
        infoFor_label pf parent _, infoFor_enabled pf parent _⟩
      simp only [entriesOf]
      simpa [MenuItem.itemId] using
        Smap.get_cons_self (entriesOf pf parent rest) i (infoFor pf parent (.leaf i l e a))
    · have hid : it.itemId ∈ nonSepIds rest := by
        rw [← treeItems_map_itemId]
        exact List.mem_map_of_mem _ hit
      have hne : it.itemId ≠ i := fun he => h2.1 (he ▸ hid)
      obtain ⟨info, hget, hl, hev⟩ := ih parent h2.2 it hit
      refine ⟨info, ?_, hl, hev⟩
      simp only [entriesOf]
      rw [Smap.get_cons_of_ne _ _ hne]
      exact hget
  | case4 i l e sub rest ih_sub ih_rest =>
    intro parent h2 it hit
    simp only [nonSepIds, List.nodup_cons, List.nodup_append] at h2
    obtain ⟨hhead, hsub, hrest, hdisj⟩ := h2
    simp only [treeItems, List.mem_cons, List.mem_append] at hit
    rcases hit with hit | hit | hit
    · subst hit
      refine ⟨infoFor pf parent (.submenuItem i l e sub), ?_,
        infoFor_label pf parent _, infoFor_enabled pf parent _⟩
      simp only [entriesOf]
      simpa [MenuItem.itemId] using
        Smap.get_cons_self
          (entriesOf pf (some (infoFor pf parent (.submenuItem i l e sub))) sub
            ++ entriesOf pf parent rest)
          i (infoFor pf parent (.submenuItem i l e sub))
    · have hid : it.itemId ∈ nonSepIds sub := by
        rw [← treeItems_map_itemId]
        exact List.mem_map_of_mem _ hit
      have hne : it.itemId ≠ i := fun he => hhead (List.mem_append.mpr (Or.inl (he ▸ hid)))
      obtain ⟨info, hget, hl, hev⟩ :=
        ih_sub (some (infoFor pf parent (.submenuItem i l e sub))) hsub it hit
      refine ⟨info, ?_, hl, hev⟩
      simp only [entriesOf]
      rw [Smap.get_cons_of_ne _ _ hne]
      exact Smap.get_append_of_some _ hget
    · have hid : it.itemId ∈ nonSepIds rest := by
        rw [← treeItems_map_itemId]
        exact List.mem_map_of_mem _ hit
      have hne : it.itemId ≠ i := fun he => hhead (List.mem_append.mpr (Or.inr (he ▸ hid)))
      have hnot : it.itemId ∉
          Smap.keys (entriesOf pf (some (infoFor pf parent (.submenuItem i l e sub))) sub) := by
        rw [entriesOf_keys]
        exact fun hm => hdisj hm hid
      obtain ⟨info, hget, hl, hev⟩ := ih_rest parent hrest it hit
      refine ⟨info, ?_, hl, hev⟩
      simp only [entriesOf]
      rw [Smap.get_cons_of_ne _ _ hne, Smap.get_append_of_not_mem _ hnot]
      exact hget

/-! ### Claim theorems -/

/-- C3: the computed accelerator key list is empty for a separator and
for a submenu container, empty for a leaf item whose accelerator is null,
and otherwise equals the leaf item's accelerator string split on the `+`
delimiter with each token mapped through the platform-specific name
lookup `pf`. -/
theorem getItemAcceleratorKeys_spec (pf : String → String) :
    getItemAcceleratorKeys pf .separator = [] ∧
    (∀ i l e sub, getItemAcceleratorKeys pf (.submenuItem i l e sub) = []) ∧
    (∀ i l e, getItemAcceleratorKeys pf (.leaf i l e none) = []) ∧
    (∀ i l e acc, getItemAcceleratorKeys pf (.leaf i l e (some acc)) =
      (acc.splitOn "+").map pf) :=
  ⟨rfl, fun _ _ _ _ => rfl, fun _ _ _ => rfl, fun _ _ _ _ => rfl⟩

/-- C8: with the feature flag off, the component renders the legacy
static panel whose single link fires the file-manager reveal operation on
the current repository with the empty relative path; with the flag on,
the Enhanced panel (the composed action list) is rendered instead. -/
theorem render_feature_flag (pf : String → String) (platform : Platform)
    (props : INoChangesProps) :
    (render false pf platform props).1 =
      PanelView.classic (classicOpener platform)
        (ClickAction.revealInFileManager props.repository "") ∧
    (render true pf platform props).1 =
      PanelView.enhanced (renderActions pf platform props).1 :=
  ⟨rfl, rfl⟩

/-- C7: for the single-slot identity cache modelling `memoizeOne`, a
second consecutive invocation with the same menu reference returns the
previously computed mapping without rebuilding it; the returned index
always equals the index of the most recently supplied menu model
(given the cache invariant); and supplying a reference different from
the cached one recomputes the index wholesale. -/
theorem getMenuInfoMapMemo_spec (pf : String → String) (env : Nat → IMenu)
    (cache : Option (Option Nat × Smap)) (r : Option Nat)
    (hinv : ∀ k v, cache = some (k, v) → v = computeMenuInfoMap pf env k) :
    (getMenuInfoMapMemo pf env (getMenuInfoMapMemo pf env cache r).2.1 r).1 =
      (getMenuInfoMapMemo pf env cache r).1 ∧
    (getMenuInfoMapMemo pf env (getMenuInfoMapMemo pf env cache r).2.1 r).2.2 = false ∧
    (getMenuInfoMapMemo pf env cache r).1 = computeMenuInfoMap pf env r ∧
    (∀ k v, cache = some (k, v) → k ≠ r →
      (getMenuInfoMapMemo pf env cache r).2.2 = true) := by
  match cache with
  | none =>
    refine ⟨?_, ?_, ?_, ?_⟩ <;> simp [getMenuInfoMapMemo]
  | some (k, v) =>
    by_cases hk : k = r
    · subst hk
      have hv : v = computeMenuInfoMap pf env k := hinv k v rfl
      refine ⟨?_, ?_, ?_, ?_⟩ <;> simp [getMenuInfoMapMemo, hv]
    · refine ⟨?_, ?_, ?_, ?_⟩ <;> simp [getMenuInfoMapMemo, hk]

/-- C7 witness: starting from an empty cache (trivially satisfying the
cache invariant) with a concrete environment and reference. -/
theorem getMenuInfoMapMemo_spec_witness :
    (getMenuInfoMapMemo (fun s => s) sampleEnv
        (getMenuInfoMapMemo (fun s => s) sampleEnv none (some 0)).2.1 (some 0)).1 =
      (getMenuInfoMapMemo (fun s => s) sampleEnv none (some 0)).1 ∧
    (getMenuInfoMapMemo (fun s => s) sampleEnv
        (getMenuInfoMapMemo (fun s => s) sampleEnv none (some 0)).2.1 (some 0)).2.2 = false ∧
    (getMenuInfoMapMemo (fun s => s) sampleEnv none (some 0)).1 =
      computeMenuInfoMap (fun s => s) sampleEnv (some 0) ∧
    (∀ k v, (none : Option (Option Nat × Smap)) = some (k, v) → k ≠ some 0 →
      (getMenuInfoMapMemo (fun s => s) sampleEnv none (some 0)).2.2 = true) :=
  getMenuInfoMapMemo_spec (fun s => s) sampleEnv none (some 0)
    (fun _ _ h => by simp at h)

/-- C2 (counterexample): on a menu whose two non-separator leaves share
the identifier `a`, the builder produces one entry for two items, and the
single entry carries the second item's label — so the map does not hold
one entry per non-separator item carrying that item's own label. -/
theorem buildMenuItemInfoMap_dup_counterexample :
    (treeItems dupMenu.items).length = 2 ∧
    (buildMenuItemInfoMap (fun s => s) dupMenu).length = 1 ∧
    Smap.get (buildMenuItemInfoMap (fun s => s) dupMenu) "a" =
      some { label := "L2", acceleratorKeys := [], parentMenuLabels := [], enabled := false } := by
  refine ⟨?_, ?_, ?_⟩ <;>
    simp [dupMenu, treeItems, buildMenuItemInfoMap, buildItems, Smap.set, Smap.keys,
      Smap.get, infoFor, getItemAcceleratorKeys, List.find?]

/-- C2 (amended): for every finite menu-model tree whose non-separator
identifiers are pairwise distinct, the (always terminating) index builder
produces a map whose keys are exactly the identifiers of the
non-separator items, with exactly one entry per non-separator item (leaf
or submenu container), each keyed by the item's own identifier and
carrying its label and enabled flag; separators produce no entry. -/
theorem buildMenuItemInfoMap_indexes_tree (pf : String → String) (menu : IMenu)
    (h : (nonSepIds menu.items).Nodup) :
    Smap.keys (buildMenuItemInfoMap pf menu) = nonSepIds menu.items ∧
    (buildMenuItemInfoMap pf menu).length = (treeItems menu.items).length ∧
    ∀ it ∈ treeItems menu.items,
      ∃ info, Smap.get (buildMenuItemInfoMap pf menu) it.itemId = some info ∧
        info.label = it.itemLabel ∧ info.enabled = it.itemEnabled := by
  have hb : buildMenuItemInfoMap pf menu = entriesOf pf none menu.items := by
    rw [buildMenuItemInfoMap,
      buildItems_eq_entriesOf pf menu.items none [] (by simp [Smap.keys]) h]
    simp
  refine ⟨?_, ?_, ?_⟩
  · rw [hb, entriesOf_keys]
  · have hkeys : (buildMenuItemInfoMap pf menu).length =
        (Smap.keys (buildMenuItemInfoMap pf menu)).length := by
      simp [Smap.keys]
    rw [hkeys, hb, entriesOf_keys, ← treeItems_map_itemId, List.length_map]
  · intro it hit
    rw [hb]
    exact entriesOf_get pf menu.items none h it hit

/-- C2 witness: the amended theorem applied to the concrete sample menu
(a submenu, separators and leaves with distinct identifiers). -/
theorem buildMenuItemInfoMap_indexes_tree_witness :
    Smap.keys (buildMenuItemInfoMap (fun s => s) sampleMenu) = nonSepIds sampleMenu.items ∧
    (buildMenuItemInfoMap (fun s => s) sampleMenu).length =
      (treeItems sampleMenu.items).length ∧
    ∀ it ∈ treeItems sampleMenu.items,
      ∃ info, Smap.get (buildMenuItemInfoMap (fun s => s) sampleMenu) it.itemId = some info ∧
        info.label = it.itemLabel ∧ info.enabled = it.itemEnabled :=
  buildMenuItemInfoMap_indexes_tree (fun s => s) sampleMenu
    (by simp [sampleMenu, nonSepIds])

/-- C1 (counterexample): a repository state with a null remote for which
the rendered Enhanced panel shows no primary action at all — the `push`
menu item is absent (here: no app menu), so `renderPublishRepositoryAction`
returns null and the primary-action area stays empty. -/
theorem renderActions_null_remote_no_primary_counterexample :
    noMenuProps.repositoryState.remote = none ∧
    (renderActions (fun s => s) Platform.linux noMenuProps).1.primary = [] :=
  ⟨rfl, rfl⟩

/-- C1 (amended): provided the `push` identifier is present in the built
index, a repository state with a null remote makes the Enhanced panel
show the publish-repository action as its only primary action; and for
every repository state with a non-null remote, no primary action appears. -/
theorem renderActions_primary_publish (pf : String → String) (platform : Platform)
    (props : INoChangesProps) :
    (props.repositoryState.remote = none →
      ∀ menuItem, getMenuItemInfo pf props "push" = some menuItem →
        (renderActions pf platform props).1.primary =
          [publishActionView props.repository menuItem]) ∧
    (∀ r, props.repositoryState.remote = some r →
      (renderActions pf platform props).1.primary = []) := by
  constructor
  · intro hr menuItem hm
    simp [renderActions, renderRemoteAction, hr, renderPublishRepositoryAction, hm]
  · intro r hr
    simp [renderActions, renderRemoteAction, hr]

/-- C1 witness: with a menu containing an enabled `push` item and a null
remote, the panel's primary area holds exactly the publish action. -/
theorem renderActions_primary_publish_witness :
    (renderActions (fun s => s) Platform.linux pushProps).1.primary =
      [publishActionView pushProps.repository pushInfo] :=
  (renderActions_primary_publish (fun s => s) Platform.linux pushProps).1 rfl pushInfo
    (by simp [getMenuItemInfo, getMenuInfoMap, pushProps, pushMenu, buildMenuItemInfoMap,
      buildItems, Smap.set, Smap.keys, Smap.get, infoFor, getItemAcceleratorKeys,
      pushInfo, List.find?])

/-- C4: when a referenced menu identifier is absent from the built index,
the menu-backed render helper returns null after logging the
missing-item error, and the panel's secondary area is still exactly the
independent composition of the three secondary helpers (so the remaining
actions render unaffected); rendering is a total function, so no
exception escapes. -/
theorem renderMenuBackedAction_missing (pf : String → String) (platform : Platform)
    (props : INoChangesProps) (itemId title : String) (description : Option DescriptionView)
    (h : getMenuItemInfo pf props itemId = none) :
    renderMenuBackedAction pf props itemId title description =
      (none, [missingItemError itemId]) ∧
    (renderActions pf platform props).1.secondary =
      [(renderShowInFinderAction pf platform props).1,
       (renderOpenInExternalEditor pf platform props).1,
       (renderViewOnGitHub pf props).1].filterMap id := by
  constructor
  · simp [renderMenuBackedAction, h]
  · rfl

/-- C4 witness: with no app menu, the `open-working-directory` lookup
fails, the helper returns null with the error logged, and the secondary
area is still the composition of the three helpers. -/
theorem renderMenuBackedAction_missing_witness :
    renderMenuBackedAction (fun s => s) noMenuProps "open-working-directory" "t" none =
      (none, [missingItemError "open-working-directory"]) ∧
    (renderActions (fun s => s) Platform.linux noMenuProps).1.secondary =
      [(renderShowInFinderAction (fun s => s) Platform.linux noMenuProps).1,
       (renderOpenInExternalEditor (fun s => s) Platform.linux noMenuProps).1,
       (renderViewOnGitHub (fun s => s) noMenuProps).1].filterMap id :=
  renderMenuBackedAction_missing (fun s => s) Platform.linux noMenuProps
    "open-working-directory" "t" none rfl

/-- C5: each of the three secondary actions (show in file manager, open
in external editor, view on remote host) is omitted — its render helper
returns null — whenever its referenced menu identifier exists in the
index with a false enabled flag. -/
theorem secondary_actions_omitted_when_disabled (pf : String → String) (platform : Platform)
    (props : INoChangesProps) :
    (∀ mi, getMenuItemInfo pf props "open-working-directory" = some mi →
      mi.enabled = false → (renderShowInFinderAction pf platform props).1 = none) ∧
    (∀ mi, getMenuItemInfo pf props "open-external-editor" = some mi →
      mi.enabled = false → (renderOpenInExternalEditor pf platform props).1 = none) ∧
    (∀ mi, getMenuItemInfo pf props "view-repository-on-github" = some mi →
      mi.enabled = false → (renderViewOnGitHub pf props).1 = none) := by
  refine ⟨?_, ?_, ?_⟩
  · intro mi hm he
    simp [renderShowInFinderAction, renderMenuBackedAction, hm, he]
  · intro mi hm he
    cases hp : getMenuItemInfo pf props "preferences" with
    | none => simp [renderOpenInExternalEditor, hm, hp]
    | some p => simp [renderOpenInExternalEditor, renderMenuBackedAction, hm, hp, he]
  · intro mi hm he
    simp [renderViewOnGitHub, renderMenuBackedAction, hm, he]

/-- C5 witness: with all three identifiers present but disabled (and
`preferences` present and enabled), all three secondary actions are
omitted. -/
theorem secondary_actions_omitted_when_disabled_witness :
    (renderShowInFinderAction (fun s => s) Platform.linux disabledProps).1 = none ∧
    (renderOpenInExternalEditor (fun s => s) Platform.linux disabledProps).1 = none ∧
    (renderViewOnGitHub (fun s => s) disabledProps).1 = none :=
  ⟨(secondary_actions_omitted_when_disabled (fun s => s) Platform.linux disabledProps).1
      { label := "Show", acceleratorKeys := [], parentMenuLabels := [], enabled := false }
      (by simp [getMenuItemInfo, getMenuInfoMap, disabledProps, disabledMenu,
        buildMenuItemInfoMap, buildItems, Smap.set, Smap.keys, Smap.get, infoFor,
        getItemAcceleratorKeys, List.find?]) rfl,
   (secondary_actions_omitted_when_disabled (fun s => s) Platform.linux disabledProps).2.1
      { label := "Editor", acceleratorKeys := [], parentMenuLabels := [], enabled := false }
      (by simp [getMenuItemInfo, getMenuInfoMap, disabledProps, disabledMenu,
        buildMenuItemInfoMap, buildItems, Smap.set, Smap.keys, Smap.get, infoFor,
        getItemAcceleratorKeys, List.find?]) rfl,
   (secondary_actions_omitted_when_disabled (fun s => s) Platform.linux disabledProps).2.2
      { label := "View", acceleratorKeys := [], parentMenuLabels := [], enabled := false }
      (by simp [getMenuItemInfo, getMenuInfoMap, disabledProps, disabledMenu,
        buildMenuItemInfoMap, buildItems, Smap.set, Smap.keys, Smap.get, infoFor,
        getItemAcceleratorKeys, List.find?]) rfl⟩

/-- C6: the open-in-external-editor action is rendered only when both the
`open-external-editor` and the `preferences` identifiers exist in the
built index; when either is absent the helper returns null and logs the
missing-item error (the source logs the `open-external-editor` id in both
branches). -/
theorem renderOpenInExternalEditor_requires_both (pf : String → String)
    (platform : Platform) (props : INoChangesProps)
    (h : getMenuItemInfo pf props "open-external-editor" = none ∨
      getMenuItemInfo pf props "preferences" = none) :
    (renderOpenInExternalEditor pf platform props).1 = none ∧
    (renderOpenInExternalEditor pf platform props).2 =
      [missingItemError "open-external-editor"] := by
  rcases h with h | h
  · constructor <;> simp [renderOpenInExternalEditor, h]
  · cases ho : getMenuItemInfo pf props "open-external-editor" with
    | none => constructor <;> simp [renderOpenInExternalEditor, ho]
    | some _ => constructor <;> simp [renderOpenInExternalEditor, ho, h]

/-- C6 witness: a menu with `open-external-editor` but no `preferences`
item omits the action and logs the error. -/
theorem renderOpenInExternalEditor_requires_both_witness :
    (renderOpenInExternalEditor (fun s => s) Platform.darwin noPrefsProps).1 = none ∧
    (renderOpenInExternalEditor (fun s => s) Platform.darwin noPrefsProps).2 =
      [missingItemError "open-external-editor"] :=
  renderOpenInExternalEditor_requires_both (fun s => s) Platform.darwin noPrefsProps
    (Or.inr (by simp [getMenuItemInfo, getMenuInfoMap, noPrefsProps, noPrefsMenu,
      buildMenuItemInfoMap, buildItems, Smap.set, Smap.keys, Smap.get, infoFor,
      getItemAcceleratorKeys, List.find?]))

/-- C9: when the `appMenu` prop is undefined, the menu-index computation
yields an empty index, so every menu-backed affordance — all three
secondary actions and, regardless of the remote field, the publish
primary action — is omitted, and rendering still produces a definite
panel (the action area is exactly empty; no exception is possible in
this total embedding). -/
theorem appMenu_undefined_omits_menu_backed (pf : String → String) (platform : Platform)
    (props : INoChangesProps) (h : props.appMenu = none) :
    getMenuInfoMap pf props.appMenu = [] ∧
    (renderShowInFinderAction pf platform props).1 = none ∧
    (renderOpenInExternalEditor pf platform props).1 = none ∧
    (renderViewOnGitHub pf props).1 = none ∧
    (renderPublishRepositoryAction pf props).1 = none ∧
    (renderActions pf platform props).1 = { primary := [], secondary := [] } := by
  have hmap : ∀ itemId, getMenuItemInfo pf props itemId = none := by
    intro itemId
    simp [getMenuItemInfo, getMenuInfoMap, h, Smap.get]
  refine ⟨by simp [getMenuInfoMap, h], ?_, ?_, ?_, ?_, ?_⟩
  · simp [renderShowInFinderAction, renderMenuBackedAction, hmap]
  · simp [renderOpenInExternalEditor, hmap]
  · simp [renderViewOnGitHub, renderMenuBackedAction, hmap]
  · simp [renderPublishRepositoryAction, hmap]
  · have hpub : (renderRemoteAction pf props).1 = none := by
      cases hr : props.repositoryState.remote with
      | none => simp [renderRemoteAction, hr, renderPublishRepositoryAction, hmap]
      | some r => simp [renderRemoteAction, hr]
    simp [renderActions, renderShowInFinderAction, renderOpenInExternalEditor,
      renderViewOnGitHub, renderMenuBackedAction, hmap, hpub]

/-- C9 witness: the concrete props with no app menu. -/
theorem appMenu_undefined_omits_menu_backed_witness :
    getMenuInfoMap (fun s => s) noMenuProps.appMenu = [] ∧
    (renderShowInFinderAction (fun s => s) Platform.win32 noMenuProps).1 = none ∧
    (renderOpenInExternalEditor (fun s => s) Platform.win32 noMenuProps).1 = none ∧
    (renderViewOnGitHub (fun s => s) noMenuProps).1 = none ∧
    (renderPublishRepositoryAction (fun s => s) noMenuProps).1 = none ∧
    (renderActions (fun s => s) Platform.win32 noMenuProps).1 =
      { primary := [], secondary := [] } :=
  appMenu_undefined_omits_menu_backed (fun s => s) Platform.win32 noMenuProps rfl

/-- C10: unlike the secondary actions, the publish primary action does
not consult the menu item's enabled flag: whenever the `push` identifier
exists in the index — even with a false enabled flag — and the remote is
null, the publish action is rendered. -/
theorem publish_ignores_enabled_flag (pf : String → String) (props : INoChangesProps)
    (menuItem : IMenuItemInfo) (hm : getMenuItemInfo pf props "push" = some menuItem)
    (hd : menuItem.enabled = false) (hr : props.repositoryState.remote = none) :
    (renderRemoteAction pf props).1 = some (publishActionView props.repository menuItem) := by
  simp [renderRemoteAction, hr, renderPublishRepositoryAction, hm]

/-- C10 witness: a menu whose `push` item is disabled still yields the
publish action when the remote is null. -/
theorem publish_ignores_enabled_flag_witness :
    (renderRemoteAction (fun s => s) disabledPushProps).1 =
      some (publishActionView disabledPushProps.repository disabledPushInfo) :=
  publish_ignores_enabled_flag (fun s => s) disabledPushProps disabledPushInfo
    (by simp [getMenuItemInfo, getMenuInfoMap, disabledPushProps, disabledPushMenu,
      buildMenuItemInfoMap, buildItems, Smap.set, Smap.keys, Smap.get, infoFor,
      getItemAcceleratorKeys, disabledPushInfo, List.find?]) rfl rfl

end NoChangesSpec
